import Mathlib

/-!
Verification of the SlashCommand script parser
(src/public/scripts/slash-commands/SlashCommandParser.js).

The parser is shallowly embedded as a fuelled state-and-exception monad over
an explicit parser state.  Strings are represented as `List Char`, the cursor
as a `Nat` index, and every mutable field of the JavaScript parser instance is
a field of `PState`.  JavaScript aliasing (the live closure and scope being
mutated through `this.closure` / `this.scope`) is modelled by keeping the
closure and scope under construction inside the state and writing them back
into the produced tree on exit, which reproduces the observable behaviour of
the reference mutation.

External collaborators that are not part of the sampled source (the
`SlashCommandScope`, `SlashCommandClosure` and `SlashCommandExecutor` classes,
`uuidv4`, `isTrueBoolean` / `isFalseBoolean`, and the macro engine's
identifier extraction) are modelled from the specification; each such
definition carries a doc comment saying so.
-/

set_option maxHeartbeats 4000000

namespace STScript

/-- The two parser flags of `PARSER_FLAG` (STRICT_ESCAPING = 1,
REPLACE_GETVAR = 2). -/
structure PFlags where
  strictEscaping : Bool := false
  replaceGetvar : Bool := false
deriving DecidableEq

/-- Modelled from the spec: a Scope is an ordered set of declared variable
names plus a link to its parent Scope (or none for the root).  A scope chain
is represented innermost-frame first: `[]` models the absence of a scope
(JavaScript `null`), `frame :: parents` models a live scope whose
`variableNames` is `frame` and whose parent chain is `parents`.  `getCopy`
(a shallow snapshot) is the identity on this value representation. -/
abbrev ScopeChain := List (List (List Char))

/-- A registry entry: what the parser reads off a resolved command
(`unnamedArgumentList.length`, `splitUnnamedArgument`,
`splitUnnamedArgumentCount`, `rawQuotes`), per the registry lookup interface
of the spec. -/
structure SCCommand where
  cname : List Char
  unnamedArgCount : Nat := 0
  splitUnnamedArgument : Bool := false
  splitUnnamedArgumentCount : Option Nat := none
  rawQuotes : Bool := false
deriving DecidableEq

/-- Which executor class was instantiated (`SlashCommandExecutor`,
`SlashCommandBreak`, `SlashCommandBreakPoint`). -/
inductive EKind where
  | generic
  | breakKind
  | breakPointKind
deriving DecidableEq

/-- Modelled from the spec: a named-argument assignment
(`SlashCommandNamedArgumentAssignment`): `(name?, value, start, end)`.
Fields that JavaScript leaves `undefined` are `none`. -/
structure NamedArgG (V : Type) where
  aname : List Char := []
  value : Option V := none
  start : Option Int := none
  stop : Option Int := none
deriving DecidableEq

/-- Modelled from the spec: an unnamed-argument assignment
(`SlashCommandUnnamedArgumentAssignment`). -/
structure UnnamedArgG (V : Type) where
  value : Option V := none
  start : Option Int := none
  stop : Option Int := none
deriving DecidableEq

/-- Modelled from the spec: one parsed command invocation
(`SlashCommandExecutor` and its subclasses).  `stop` models the source field
`end` (a Lean keyword).  Fields never assigned by the parser remain `none`;
in particular `parserFlags` is only assigned by the generic-command parser. -/
structure ExecutorG (V : Type) where
  kindE : EKind := .generic
  ename : List Char := []
  command : Option SCCommand := none
  start : Option Int := none
  stop : Option Int := none
  startNamedArgs : Option Int := none
  stopNamedArgs : Option Int := none
  startUnnamedArgs : Option Int := none
  stopUnnamedArgs : Option Int := none
  namedArgumentList : List (NamedArgG V) := []
  unnamedArgumentList : List (UnnamedArgG V) := []
  injectPipe : Option Bool := none
  parserFlags : Option PFlags := none
deriving DecidableEq

/-- Modelled from the spec: a lexical block (`SlashCommandClosure`).  Its
`scope` field holds the full scope chain of the closure (own frame first). -/
structure ClosureG (V : Type) where
  scope : ScopeChain := []
  argumentList : List (NamedArgG V) := []
  executorList : List (ExecutorG V) := []
  rawText : List Char := []
  fullText : List Char := []
  executeNow : Bool := false
  parserContext : List Char := []
  abortAttached : Bool := false
  debugAttached : Bool := false
deriving DecidableEq

/-- An argument value: a string or a closure (the tagged variant of the
spec's data model). -/
inductive SCVal where
  | vstr (s : List Char)
  | vclosure (c : ClosureG SCVal)

abbrev SCClosure := ClosureG SCVal
abbrev SCExecutor := ExecutorG SCVal
abbrev SCNamedArg := NamedArgG SCVal
abbrev SCUnnamedArg := UnnamedArgG SCVal

/-- A macro-index entry (`{start, end, name}`). -/
structure MacroEntry where
  start : Int
  stop : Int
  mname : List Char
deriving DecidableEq

/-- The error taxonomy of `SlashCommandParserError`, identified by message,
plus the fuel sentinel of the embedding and a sentinel for JavaScript runtime
type errors (both unreachable on the inputs of interest). -/
inductive ErrKind where
  | unknownCommand
  | unclosedClosure
  | unclosedComment
  | unclosedBlockComment
  | unterminatedQuote
  | unterminatedList
  | unexpectedArgumentEnd
  | unexpectedCommandEnd
  | jsError
  | outOfFuel
deriving DecidableEq

/-- A raised parser error with the offending offset (`none` where the source
constructs the error without a position). -/
structure PErr where
  kind : ErrKind
  offset : Option Int := none
deriving DecidableEq

/-- The mutable state of one `SlashCommandParser` instance during `parse`,
plus the explicit unique-id source standing for `uuidv4()` and one ghost
instrumentation counter (`droppedClosures`, see `parseParserFlagFn`). -/
structure PState where
  text : List Char
  index : Nat := 0
  flags : PFlags := {}
  verifyCommandNames : Bool := true
  jumpedEscapeSequence : Bool := false
  scope : ScopeChain := []
  closure : Option SCClosure := none
  closureIndex : List (Int × Option Int) := []
  commandIndex : List SCExecutor := []
  scopeIndex : List ScopeChain := []
  macroIndex : List MacroEntry := []
  parserContext : List Char := []
  uuidSource : Nat → List Char := fun _ => []
  uuidCount : Nat := 0
  experimentalMacroEngine : Bool := false
  abortAttached : Bool := false
  debugAttached : Bool := false
  droppedClosures : Nat := 0

/-- The parsing monad: state plus synchronous exceptions. -/
def M (α : Type) : Type := PState → Except PErr (α × PState)

instance : Monad M where
  pure a := fun s => .ok (a, s)
  bind m f := fun s => match m s with
    | .error e => .error e
    | .ok (a, s1) => f a s1

def getS : M PState := fun s => .ok (s, s)

def modifyS (f : PState → PState) : M Unit := fun s => .ok ((), f s)

def throwE {α : Type} (e : PErr) : M α := fun _ => .error e

@[simp] theorem bind_def {α β : Type} (m : M α) (f : α → M β) (s : PState) :
    (m >>= f) s = match m s with
      | .error e => .error e
      | .ok (a, s1) => f a s1 := rfl

@[simp] theorem pure_def {α : Type} (a : α) (s : PState) :
    (pure a : M α) s = .ok (a, s) := rfl

@[simp] theorem getS_def (s : PState) : getS s = .ok (s, s) := rfl

@[simp] theorem modifyS_def (f : PState → PState) (s : PState) :
    modifyS f s = .ok ((), f s) := rfl

@[simp] theorem throwE_def {α : Type} (e : PErr) (s : PState) :
    (throwE e : M α) s = .error e := rfl

/-- The JavaScript `\s` class (the whitespace characters relevant here). -/
def isWS (c : Char) : Bool :=
  c = ' ' || c = '\t' || c = '\n' || c = '\x0d' || c = '\x0b' || c = '\x0c' ||
  c = ' ' || c = ' ' || c = ' ' || c = '﻿'

/-- The JavaScript `\w` class. -/
def isWordChar (c : Char) : Bool :=
  ('a' ≤ c && c ≤ 'z') || ('A' ≤ c && c ≤ 'Z') || ('0' ≤ c && c ≤ '9') || c = '_'

/-- `this.char`: the character under the cursor, if any. -/
def PState.charAt (s : PState) : Option Char := s.text.get? s.index

/-- `this.ahead.length` (`text.slice(index + 1).length`). -/
def PState.aheadLen (s : PState) : Nat := s.text.length - (s.index + 1)

/-- `text.slice(index)`. -/
def PState.remaining (s : PState) : List Char := s.text.drop s.index

/-- `this.behind` (`text.slice(0, index)`). -/
def PState.behind (s : PState) : List Char := s.text.take s.index

/-- `this.endOfText`: past the end, or on whitespace with only (at least one)
whitespace ahead. -/
def PState.endOfText (s : PState) : Bool :=
  s.index ≥ s.text.length ||
    ((match s.charAt with | some c => isWS c | none => false) &&
      (s.text.drop (s.index + 1) ≠ [] && (s.text.drop (s.index + 1)).all isWS))

/-- `take()`: resets the escape-skip flag and advances the cursor, returning
the character that was under it. -/
def takeM : M (Option Char) := fun s =>
  .ok (s.charAt, { s with jumpedEscapeSequence := false, index := s.index + 1 })

/-- `take(n)` when the result is discarded: `n` chained single `take`s. -/
def takeN (n : Nat) : M Unit := fun s =>
  .ok ((), { s with jumpedEscapeSequence := false, index := s.index + n })

/-- JavaScript string concatenation `value += this.take()`: appending
`undefined` would append the text "undefined" (unreachable in practice). -/
def appendTaken (v : List Char) (c : Option Char) : List Char :=
  match c with
  | some ch => v ++ [ch]
  | none => v ++ ("undefined".toList)

def dwGoBody (go : PState → PState) (s : PState) : PState :=
  match s.charAt with
  | some c =>
    if isWS c then
      go { s with jumpedEscapeSequence := false, index := s.index + 1 }
    else s
  | none => s

def dwGo (fuel : Nat) : PState → PState :=
  Nat.rec (fun s => s) (fun _ prev => dwGoBody prev) fuel

/-- `discardWhitespace()`. -/
def discardWhitespaceM : M Unit := fun s =>
  .ok ((), dwGo (s.text.length + 1 - s.index) s)

/-- The symbol patterns `testSymbol` is called with: literal strings and the
four regular expressions of the source. -/
inductive SPat where
  | lit (cs : List Char)
  | breakPointPat
  | breakPat
  | commentPat
  | wsPat

/-- Matching a pattern against the head of the remaining text (the `^`
anchored test of `testSymbol`). -/
def patTest : SPat → List Char → Bool
  | .lit cs, rest => cs.isPrefixOf rest
  | .breakPointPat, rest =>
    ("/breakpoint".toList).isPrefixOf rest &&
      (match (rest.drop 11).dropWhile isWS with
        | '|' :: _ => true
        | _ => false)
  | .breakPat, rest =>
    ("/break".toList).isPrefixOf rest &&
      (match rest.drop 6 with
        | [] => true
        | c :: _ => isWS c || c = '|')
  | .commentPat, rest =>
    match rest with
    | '/' :: c :: _ => c = '/' || c = '#'
    | _ => false
  | .wsPat, rest =>
    match rest with
    | c :: _ => isWS c
    | _ => false

/-- Leading run of backslashes (`/^(\\*)/`). -/
def leadingBackslashes (l : List Char) : Nat :=
  (l.takeWhile (fun c => c = '\\')).length

/-- `testSymbolLooseyGoosey(sequence, offset)`: one potential escaping
backslash directly at the probe position (the branches spell out the two
values of `escapes`). -/
def testSymbolLooseM (pat : SPat) (offset : Nat) : M Bool := fun s =>
  let pos := s.index + offset - (if s.jumpedEscapeSequence then 1 else 0)
  if (s.text.get? pos) = some '\\' then
    if patTest pat (s.text.drop (pos + 1)) then
      if !s.jumpedEscapeSequence && offset = 0 then
        .ok (false, { s with index := s.index + 1, jumpedEscapeSequence := true })
      else .ok (false, s)
    else .ok (false, s)
  else
    if patTest pat (s.text.drop pos) then .ok (true, s)
    else .ok (false, s)

/-- `testSymbol(sequence, offset)`: strict-escaping aware delimiter test.
Falls back to the loose test when STRICT_ESCAPING is off. -/
def testSymbolM (pat : SPat) (offset : Nat) : M Bool := fun s =>
  if !s.flags.strictEscaping then testSymbolLooseM pat offset s else
  let pos := s.index + offset - (if s.jumpedEscapeSequence then 1 else 0)
  let base := s.text.drop pos
  let escapes := leadingBackslashes base
  if patTest pat (base.drop escapes) then
    if escapes = 0 then .ok (true, s)
    else if !s.jumpedEscapeSequence && offset = 0 then
      .ok (false, { s with index := s.index + 1, jumpedEscapeSequence := true })
    else .ok (false, s)
  else .ok (false, s)

end STScript

namespace STScript

def patOpenClosure : SPat := .lit ("\x7b:".toList)

def patCloseClosure : SPat := .lit (":\x7d".toList)

def patPipe : SPat := .lit ("|".toList)

def patBlockOpen : SPat := .lit ("/*".toList)

def patBlockClose : SPat := .lit ("*|".toList)

def patParserFlag : SPat := .lit ("/parser-flag ".toList)

def patRunShorthand : SPat := .lit ("/:".toList)

def patSlash : SPat := .lit ("/".toList)

def patQuote : SPat := .lit ("\"".toList)

def patBracketOpen : SPat := .lit ("[".toList)

def patBracketClose : SPat := .lit ("]".toList)

def patParens : SPat := .lit ("()".toList)

/-- The commands the parser constructor itself registers (`parser-flag`,
`/` with alias `#`, `breakpoint`, `break`), transcribed from the source. -/
def cmdParserFlag : SCCommand :=
  { cname := "parser-flag".toList, unnamedArgCount := 2, splitUnnamedArgument := true }

def cmdComment : SCCommand := { cname := "/".toList, unnamedArgCount := 1 }

def cmdBreakPoint : SCCommand := { cname := "breakpoint".toList }

def cmdBreak : SCCommand := { cname := "break".toList, unnamedArgCount := 1 }

/-- Modelled from the spec: the application-level part of the stable command
registry (a lookup `name -> exists, arity, split, split cap, raw quotes`).
`echo`, `let`, `import`, `run`, `getvar`, `getglobalvar`, `return` are
commands the source refers to by name; `spl2` and `spl1` are representative
commands declaring arity 2 with splitting enabled (without and with a
split-count cap of 1). -/
def cmdEcho : SCCommand := { cname := "echo".toList, unnamedArgCount := 1 }

def cmdLet : SCCommand :=
  { cname := "let".toList, unnamedArgCount := 2, splitUnnamedArgument := true }

def cmdImport : SCCommand :=
  { cname := "import".toList, unnamedArgCount := 2, splitUnnamedArgument := true }

def cmdRun : SCCommand := { cname := "run".toList, unnamedArgCount := 1 }

def cmdGetvar : SCCommand := { cname := "getvar".toList, unnamedArgCount := 1 }

def cmdGetGlobalvar : SCCommand :=
  { cname := "getglobalvar".toList, unnamedArgCount := 1 }

def cmdReturn : SCCommand := { cname := "return".toList, unnamedArgCount := 1 }

def cmdSpl2 : SCCommand :=
  { cname := "spl2".toList, unnamedArgCount := 2, splitUnnamedArgument := true }

def cmdSpl1 : SCCommand :=
  { cname := "spl1".toList, unnamedArgCount := 2, splitUnnamedArgument := true,
    splitUnnamedArgumentCount := some 1 }

/-- `this.commands[name]`: the process-wide registry, read-only during
parsing (`#` is an alias of `/`). -/
def commandsLookup (n : List Char) : Option SCCommand :=
  if n = "parser-flag".toList then some cmdParserFlag
  else if n = "/".toList then some cmdComment
  else if n = "#".toList then some cmdComment
  else if n = "breakpoint".toList then some cmdBreakPoint
  else if n = "break".toList then some cmdBreak
  else if n = "echo".toList then some cmdEcho
  else if n = "let".toList then some cmdLet
  else if n = "import".toList then some cmdImport
  else if n = "run".toList then some cmdRun
  else if n = "getvar".toList then some cmdGetvar
  else if n = "getglobalvar".toList then some cmdGetGlobalvar
  else if n = "return".toList then some cmdReturn
  else if n = "spl2".toList then some cmdSpl2
  else if n = "spl1".toList then some cmdSpl1
  else none

/-- The registered names that are ordinary generic commands (not one of the
reserved statement forms the closure loop dispatches on specially). -/
def plainRegisteredNames : List (List Char) :=
  ["echo", "let", "import", "run", "getvar", "getglobalvar", "return",
    "spl2", "spl1"].map String.toList

/-- Modelled from the spec: `isTrueBoolean` of the utilities module
(an on/true/1 test, case-insensitive). -/
def isTrueBooleanL (l : List Char) : Bool :=
  let t := (trimL l).map Char.toLower
  t = "true".toList || t = "1".toList || t = "on".toList
where
  /-- `String.trim` over the JavaScript whitespace class. -/
  trimL (l : List Char) : List Char :=
    ((l.dropWhile isWS).reverse.dropWhile isWS).reverse

/-- `String.trimStart`. -/
def trimStartL (l : List Char) : List Char := l.dropWhile isWS

/-- `String.trimEnd`. -/
def trimEndL (l : List Char) : List Char := (l.reverse.dropWhile isWS).reverse

/-- `String.trim`. -/
def trimBothL (l : List Char) : List Char := trimEndL (trimStartL l)

/-- Modelled from the spec: `isFalseBoolean` of the utilities module. -/
def isFalseBooleanL (l : List Char) : Bool :=
  let t := (trimBothL l).map Char.toLower
  t = "false".toList || t = "0".toList || t = "off".toList

/-- `testClosure()`. -/
def testClosureM : M Bool := testSymbolM patOpenClosure 0

/-- `testClosureEnd()`: for the root scope (no parent) true exactly at
end-of-input; otherwise end-of-input is accepted only without verification,
and with verification running out of lookahead raises UnclosedClosure. -/
def testClosureEndM : M Bool := fun s =>
  match s.scope with
  | [] => .error { kind := .jsError }
  | [_] =>
    if s.index ≥ s.text.length then .ok (true, s) else .ok (false, s)
  | _ :: _ :: _ =>
    if !s.verifyCommandNames then
      if s.index ≥ s.text.length then .ok (true, s)
      else testSymbolM patCloseClosure 0 s
    else
      if s.aheadLen < 1 then
        .error { kind := .unclosedClosure, offset := some (s.index : Int) }
      else testSymbolM patCloseClosure 0 s

/-- `testCommandEnd()`: closure end or an unescaped pipe (short-circuit). -/
def testCommandEndM : M Bool := do
  let b ← testClosureEndM
  if b then pure true else testSymbolM patPipe 0

/-- `testBreakPoint()`. -/
def testBreakPointM : M Bool := testSymbolM .breakPointPat 0

/-- `testBreak()`. -/
def testBreakM : M Bool := testSymbolM .breakPat 0

/-- `testBlockComment()`. -/
def testBlockCommentM : M Bool := testSymbolM patBlockOpen 0

/-- `testBlockCommentEnd()`. -/
def testBlockCommentEndM : M Bool := fun s =>
  if !s.verifyCommandNames then
    if s.index ≥ s.text.length then .ok (true, s)
    else testSymbolM patBlockClose 0 s
  else
    if s.aheadLen < 1 then
      .error { kind := .unclosedBlockComment, offset := some (s.index : Int) }
    else testSymbolM patBlockClose 0 s

/-- `testComment()`. -/
def testCommentM : M Bool := testSymbolM .commentPat 0

/-- `testCommentEnd()`. -/
def testCommentEndM : M Bool := fun s =>
  if !s.verifyCommandNames then
    if s.index ≥ s.text.length then .ok (true, s)
    else testSymbolM patPipe 0 s
  else
    if s.endOfText then
      .error { kind := .unclosedComment, offset := some (s.index : Int) }
    else testSymbolM patPipe 0 s

/-- `testParserFlag()`. -/
def testParserFlagM : M Bool := testSymbolM patParserFlag 0

/-- `testRunShorthand()` (short-circuit conjunction of two symbol tests). -/
def testRunShorthandM : M Bool := do
  let b ← testSymbolM patRunShorthand 0
  if b then do
    let b2 ← testSymbolM patCloseClosure 1
    pure !b2
  else pure false

/-- `testCommand()`. -/
def testCommandM : M Bool := testSymbolM patSlash 0

/-- `testNamedArgument()`: `/^(\w+)=/` on the text from the cursor on
(free of side effects). -/
def testNamedArgumentM : M Bool := fun s =>
  let r := s.remaining
  let w := r.takeWhile isWordChar
  .ok (w ≠ [] && (r.drop w.length).head? = some '=', s)

/-- `testQuotedValue()`. -/
def testQuotedValueM : M Bool := testSymbolM patQuote 0

/-- `testQuotedValueEnd()`. -/
def testQuotedValueEndM : M Bool := fun s =>
  if s.endOfText then
    if s.verifyCommandNames then
      .error { kind := .unterminatedQuote, offset := some (s.index : Int) }
    else .ok (true, s)
  else
    (do
      if !s.verifyCommandNames then
        let b ← testClosureEndM
        if b then pure true else testQuotedValueEndRest
      else testQuotedValueEndRest) s
where
  /-- The tail of `testQuotedValueEnd` after the closure-end shortcut. -/
  testQuotedValueEndRest : M Bool := do
    let s1 ← getS
    if s1.verifyCommandNames && !s1.flags.strictEscaping then
      let b ← testCommandEndM
      if b then
        throwE { kind := .unterminatedQuote, offset := some (s1.index : Int) }
      else testQuotedValueEndTail
    else testQuotedValueEndTail
  /-- `return this.testSymbol('"') || (!strict && this.testCommandEnd())`. -/
  testQuotedValueEndTail : M Bool := do
    let b ← testSymbolM patQuote 0
    if b then pure true
    else do
      let s2 ← getS
      if !s2.flags.strictEscaping then testCommandEndM else pure false

/-- `testListValue()`. -/
def testListValueM : M Bool := testSymbolM patBracketOpen 0

/-- `testListValueEnd()`: end-of-text is an error regardless of the
verification setting. -/
def testListValueEndM : M Bool := fun s =>
  if s.endOfText then
    .error { kind := .unterminatedList, offset := some (s.index : Int) }
  else testSymbolM patBracketClose 0 s

/-- `testValue()`. -/
def testValueM : M Bool := do
  let b ← testSymbolM .wsPat 0
  pure !b

/-- `testValueEnd()`. -/
def testValueEndM : M Bool := do
  let b ← testSymbolM .wsPat 0
  if b then pure true else testCommandEndM

/-- `testUnnamedArgument()`. -/
def testUnnamedArgumentM : M Bool := do
  let b ← testCommandEndM
  pure !b

/-- `testUnnamedArgumentEnd()`. -/
def testUnnamedArgumentEndM : M Bool := testCommandEndM

/-- Run a fuelled loop with fuel derived from the input length (every loop
below advances the cursor at least once per iteration and stops at or before
the end of the text, so this fuel is never exhausted). -/
def withFuel {α : Type} (k : Nat → M α) : M α := fun s => k (s.text.length + 2) s

end STScript

namespace STScript

/-- The quoted-value accumulation loop of `parseQuotedValue`. -/
def quotedGoBody (go : List Char → M (List Char)) (v : List Char) : M (List Char) := do
    let b ← testQuotedValueEndM
    if b then pure v
    else do
      let c ← takeM
      go (appendTaken v c)

/-- `quotedGo` tied by plain recursion on the fuel. -/
def quotedGo (fuel : Nat) : List Char → M (List Char) :=
  Nat.rec (fun _ => throwE { kind := .outOfFuel }) (fun _ prev => quotedGoBody prev) fuel


/-- The bare-value accumulation loop of `parseValue`. -/
def valueGoBody (go : List Char → M (List Char)) (v : List Char) : M (List Char) := do
    let b ← testValueEndM
    if b then pure v
    else do
      let c ← takeM
      go (appendTaken v c)

/-- `valueGo` tied by plain recursion on the fuel. -/
def valueGo (fuel : Nat) : List Char → M (List Char) :=
  Nat.rec (fun _ => throwE { kind := .outOfFuel }) (fun _ prev => valueGoBody prev) fuel


/-- The list-value accumulation loop of `parseListValue`. -/
def listGoBody (go : List Char → M (List Char)) (v : List Char) : M (List Char) := do
    let b ← testListValueEndM
    if b then pure v
    else do
      let c ← takeM
      go (appendTaken v c)

/-- `listGo` tied by plain recursion on the fuel. -/
def listGo (fuel : Nat) : List Char → M (List Char) :=
  Nat.rec (fun _ => throwE { kind := .outOfFuel }) (fun _ prev => listGoBody prev) fuel


/-- The comment-skipping loop of `parseComment`. -/
def commentGoBody (go : M Unit) : M Unit := do
    let b ← testCommentEndM
    if b then pure ()
    else do
      let _ ← takeM
      go

/-- `commentGo` tied by plain recursion on the fuel. -/
def commentGo (fuel : Nat) : M Unit :=
  Nat.rec (throwE { kind := .outOfFuel }) (fun _ prev => commentGoBody prev) fuel


/-- Modelled from the spec: the leading-identifier extraction of the macro
engine (`parseMacroContext(content, content.length).identifier`), restricted
to the identifier result: skip leading whitespace (flag symbols, an external
set, are not modelled), treat a leading `.`/`$` variable shorthand as having
no identifier, split the rest on the first `::` separator, and inside the
first part cut the identifier at its first inner whitespace (only when no
separator exists), finally stripping trailing colons. -/
def macroIdentifier (content : List Char) : List Char :=
  let l := trimStartL content
  match l.head? with
  | some '.' => []
  | some '$' => []
  | _ =>
    let firstPart := miFirstPart l
    let hasSep := firstPart.length ≠ l.length
    let trimmed := trimStartL firstPart
    let w := trimmed.takeWhile (fun c => !isWS c)
    let identifierOnly :=
      if w.length ≠ 0 && w.length < trimmed.length && !hasSep then w
      else trimEndL trimmed
    (identifierOnly.reverse.dropWhile (fun c => c = ':')).reverse
where
  /-- The text of `parts[0]`: everything before the first `::`. -/
  miFirstPart : List Char → List Char
    | [] => []
    | ':' :: ':' :: _ => []
    | c :: rest => c :: miFirstPart rest

/-- The nested depth scan of `indexMacros`: starting just inside a macro at
`i` with depth 1, returns `(macroEnd, i)` after the scan (`macroEnd`
defaults to the text length when unclosed). -/
def imDepthBody (go : List Char → Nat → Nat → Nat × Nat)
    (txt : List Char) (i depth : Nat) : Nat × Nat :=
    if i < txt.length - 1 && depth > 0 then
      if txt.getD i ' ' = '\x7b' && txt.getD (i + 1) ' ' = '\x7b' then
        go txt (i + 2) (depth + 1)
      else if txt.getD i ' ' = '\x7d' && txt.getD (i + 1) ' ' = '\x7d' then
        if depth = 1 then (i + 2, i + 2)
        else go txt (i + 2) (depth - 1)
      else go txt (i + 1) depth
    else (txt.length, i)

/-- `imDepth` tied by plain recursion on the fuel. -/
def imDepth (fuel : Nat) : List Char → Nat → Nat → Nat × Nat :=
  Nat.rec (fun txt i _ => (txt.length, i)) (fun _ prev => imDepthBody prev) fuel


/-- The rescan of `indexMacros` looking for a nested `{{` before
`contentEnd`. -/
def imNestedBody (go : List Char → Nat → Nat → Nat)
    (txt : List Char) (i contentEnd : Nat) : Nat :=
    if i < contentEnd then
      if txt.getD i ' ' = '\x7b' && i + 1 < txt.length &&
          txt.getD (i + 1) ' ' = '\x7b' then i
      else go txt (i + 1) contentEnd
    else i

/-- `imNested` tied by plain recursion on the fuel. -/
def imNested (fuel : Nat) : List Char → Nat → Nat → Nat :=
  Nat.rec (fun _ i _ => i) (fun _ prev => imNestedBody prev) fuel


/-- The outer loop of `indexMacros`, producing the entries pushed for one
text span (a pure function of the span and its base offset). -/
def imGoBody (go : Int → List Char → Nat → List MacroEntry)
    (offset : Int) (txt : List Char) (i : Nat) : List MacroEntry :=
    if i < txt.length - 1 then
      if txt.getD i ' ' = '\x7b' && txt.getD (i + 1) ' ' = '\x7b' then
        let macroStart := i
        let scan := imDepth (txt.length + 2) txt (i + 2) 1
        let macroEnd := scan.1
        let contentEnd := if macroEnd = txt.length then macroEnd else macroEnd - 2
        let content := (txt.take contentEnd).drop (macroStart + 2)
        let entry : MacroEntry :=
          { start := offset + macroStart, stop := offset + macroEnd,
            mname := macroIdentifier content }
        let i3 := imNested (txt.length + 2) txt (macroStart + 2) contentEnd
        let i4 := if i3 ≥ contentEnd then macroEnd else i3
        entry :: go offset txt i4
      else go offset txt (i + 1)
    else []

/-- `imGo` tied by plain recursion on the fuel. -/
def imGo (fuel : Nat) : Int → List Char → Nat → List MacroEntry :=
  Nat.rec (fun _ _ _ => []) (fun _ prev => imGoBody prev) fuel


/-- `indexMacros(offset, text)`: records every (possibly nested) macro span
of a literal text span into the macro index. -/
def indexMacrosM (offset : Int) (txt : List Char) : M Unit :=
  modifyS (fun s => { s with macroIndex := s.macroIndex ++ imGo (txt.length + 2) offset txt 0 })

/-- `uuidv4()`: draw the next identifier from the explicit unique-id
source.  Modelled from the spec: the source notes the ids come from a
general-purpose random UUID source, so the draws are an input of the
embedding. -/
def drawUuid : M (List Char) := fun s =>
  .ok (s.uuidSource s.uuidCount, { s with uuidCount := s.uuidCount + 1 })

/-- `this.closure.executorList.push(e)` (a TypeError if no closure is
live). -/
def pushClosureExecutor (e : SCExecutor) : M Unit := fun s =>
  match s.closure with
  | none => .error { kind := .jsError }
  | some c =>
    .ok ((), { s with closure := some { c with executorList := c.executorList ++ [e] } })

/-- One match attempt of the getvar-rewrite pattern
`{{(get(?:global)?var)::([^}]+)}}` (case-insensitive) at the head of `l`:
returns the lowercased command word, the raw variable name and the match
length. -/
def matchGetvar (l : List Char) : Option (List Char × List Char × Nat) :=
  if l.take 2 = "\x7b\x7b".toList then
    let r := l.drop 2
    let tryWord (w : List Char) : Option (List Char × List Char × Nat) :=
      if (r.take w.length).map Char.toLower = w then
        let r2 := r.drop w.length
        if r2.take 2 = "::".toList then
          let nm := (r2.drop 2).takeWhile (fun c => c ≠ '\x7d')
          if nm ≠ [] && ((r2.drop 2).drop nm.length).take 2 = "\x7d\x7d".toList then
            some (w, nm, 2 + w.length + 2 + nm.length + 2)
          else none
        else none
      else none
    match tryWord "getglobalvar".toList with
    | some res => some res
    | none => tryWord "getvar".toList
  else none

/-- The scan of `String.replace` inside `replaceGetvar`: walks the original
value, emitting replacement text and pushing the four synthetic executors
(store pipe, invoke getter, store to temporary, return temporary) for every
match. -/
def rgGoBody (go : List Char → Nat → List Char → M (List Char))
    (v : List Char) (i : Nat) (acc : List Char) : M (List Char) :=
    if i < v.length then
      match matchGetvar (v.drop i) with
      | none => go v (i + 1) (acc ++ [v.getD i ' '])
      | some (cmdWord, rawName, len) => do
        let s0 ← getS
        let nm := trimBothL rawName
        let startIdx : Int := (s0.index : Int) - v.length + i
        let endIdx : Int := (s0.index : Int) - v.length + i + len
        let pipeUuid ← drawUuid
        let pipeName := "_PARSER_PIPE_".toList ++ pipeUuid
        pushClosureExecutor
          { ename := "let".toList, command := commandsLookup "let".toList,
            start := some startIdx, stop := some endIdx,
            unnamedArgumentList :=
              [{ value := some (.vstr pipeName) },
                { value := some (.vstr "\x7b\x7bpipe\x7d\x7d".toList) }] }
        pushClosureExecutor
          { ename := cmdWord, command := commandsLookup cmdWord,
            start := some startIdx, stop := some endIdx,
            unnamedArgumentList := [{ value := some (.vstr nm) }] }
        let varUuid ← drawUuid
        let varName := "_PARSER_VAR_".toList ++ varUuid
        pushClosureExecutor
          { ename := "let".toList, command := commandsLookup "let".toList,
            start := some startIdx, stop := some endIdx,
            unnamedArgumentList :=
              [{ value := some (.vstr varName) },
                { value := some (.vstr "\x7b\x7bpipe\x7d\x7d".toList) }] }
        pushClosureExecutor
          { ename := "return".toList, command := commandsLookup "return".toList,
            start := some startIdx, stop := some endIdx,
            unnamedArgumentList :=
              [{ value := some (.vstr ("\x7b\x7bvar::".toList ++ pipeName ++ "\x7d\x7d".toList)) }] }
        go v (i + len)
          (acc ++ "\x7b\x7bvar::".toList ++ varName ++ "\x7d\x7d".toList)
    else pure acc

/-- `rgGo` tied by plain recursion on the fuel. -/
def rgGo (fuel : Nat) : List Char → Nat → List Char → M (List Char) :=
  Nat.rec (fun _ _ _ => throwE { kind := .outOfFuel }) (fun _ prev => rgGoBody prev) fuel


/-- `replaceGetvar(value)`: with the experimental macro engine active the
value is returned untouched; otherwise every legacy getter macro is
desugared into four synthetic statements appended to the current closure and
replaced by a temporary-variable reference. -/
def replaceGetvarM (v : List Char) : M (List Char) := fun s =>
  if s.experimentalMacroEngine then .ok (v, s)
  else rgGo (v.length + 1) v 0 [] s

/-- `parseQuotedValue()`. -/
def parseQuotedValueM : M (List Char) := do
  let _ ← takeM
  let v ← withFuel (fun f => quotedGo f [])
  let _ ← takeM
  let s ← getS
  let v ← if s.flags.replaceGetvar then replaceGetvarM v else pure v
  let s1 ← getS
  indexMacrosM ((s1.index : Int) - v.length) v
  pure v

/-- `parseListValue()`. -/
def parseListValueM : M (List Char) := do
  let c ← takeM
  let v ← withFuel (fun f => listGo f (appendTaken [] c))
  let c2 ← takeM
  let v := appendTaken v c2
  let s ← getS
  let v ← if s.flags.replaceGetvar then replaceGetvarM v else pure v
  let s1 ← getS
  indexMacrosM ((s1.index : Int) - v.length) v
  pure v

/-- `parseValue()`. -/
def parseValueM : M (List Char) := do
  let s0 ← getS
  let v0 ← if s0.jumpedEscapeSequence then do
      let c ← takeM
      pure (appendTaken [] c)
    else pure []
  let v ← withFuel (fun f => valueGo f v0)
  let s ← getS
  let v ← if s.flags.replaceGetvar then replaceGetvarM v else pure v
  let s1 ← getS
  indexMacrosM ((s1.index : Int) - v.length) v
  pure v

/-- `parseComment()`. -/
def parseCommentM : M Unit := do
  let s0 ← getS
  let start : Int := (s0.index : Int) + 1
  let cmd0 : SCExecutor := { start := some start, command := commandsLookup "/".toList }
  let pos := s0.commandIndex.length
  modifyS (fun s =>
    { s with
      commandIndex := s.commandIndex ++ [cmd0],
      scopeIndex := s.scopeIndex ++ [s.scope] })
  let _ ← takeM
  let c ← takeM
  let nm := appendTaken [] c
  withFuel commentGo
  let s1 ← getS
  let cmd1 := { cmd0 with ename := nm, stop := some (s1.index : Int) }
  modifyS (fun s => { s with commandIndex := s.commandIndex.set pos cmd1 })

/-- `parseBreakPoint()`. -/
def parseBreakPointM : M SCExecutor := do
  let s0 ← getS
  let start : Int := (s0.index : Int) + 1
  takeN 11
  let s1 ← getS
  let cmd : SCExecutor :=
    { kindE := .breakPointKind, ename := "breakpoint".toList,
      command := commandsLookup "breakpoint".toList,
      start := some start, stop := some (s1.index : Int) }
  modifyS (fun s =>
    { s with
      commandIndex := s.commandIndex ++ [cmd],
      scopeIndex := s.scopeIndex ++ [s.scope] })
  pure cmd

end STScript

namespace STScript

mutual

/-- Closures contained in a value (counting a closure itself plus every
closure nested in its arguments and executors). -/
def countVal : SCVal → Nat
  | .vstr _ => 0
  | .vclosure c => countClosure c

def countClosure : SCClosure → Nat
  | c => 1 + countNamedList c.argumentList + countExecList c.executorList

def countValOpt : Option SCVal → Nat
  | none => 0
  | some v => countVal v

def countNamedList : List SCNamedArg → Nat
  | [] => 0
  | a :: rest => countValOpt a.value + countNamedList rest

def countUnnamedList : List SCUnnamedArg → Nat
  | [] => 0
  | u :: rest => countValOpt u.value + countUnnamedList rest

def countExecList : List SCExecutor → Nat
  | [] => 0
  | e :: rest =>
    countNamedList e.namedArgumentList + countUnnamedList e.unnamedArgumentList +
      countExecList rest

end

/-- `cmd.name += this.take()` loop of `parseCommand`: take characters until
whitespace or command end. -/
def nameGoBody (go : List Char → M (List Char)) (nm : List Char) : M (List Char) := do
    let s ← getS
    let isSpace := match s.charAt with | some c => isWS c | none => false
    if isSpace then pure nm
    else do
      let b ← testCommandEndM
      if b then pure nm
      else do
        let c ← takeM
        go (appendTaken nm c)

/-- `nameGo` tied by plain recursion on the fuel. -/
def nameGo (fuel : Nat) : List Char → M (List Char) :=
  Nat.rec (fun _ => throwE { kind := .outOfFuel }) (fun _ prev => nameGoBody prev) fuel


/-- The named-argument key loop of `parseNamedArgument` (`/\w/` chars). -/
def keyGoBody (go : List Char → M (List Char)) (k : List Char) : M (List Char) := do
    let s ← getS
    match s.charAt with
    | some c =>
      if isWordChar c then do
        let c2 ← takeM
        go (appendTaken k c2)
      else pure k
    | none => pure k

/-- `keyGo` tied by plain recursion on the fuel. -/
def keyGo (fuel : Nat) : List Char → M (List Char) :=
  Nat.rec (fun _ => throwE { kind := .outOfFuel }) (fun _ prev => keyGoBody prev) fuel


/-- The inert-text discard loop of the closure statement dispatcher
(`while (!this.testCommandEnd()) this.take()`). -/
def discardGoBody (go : M Unit) : M Unit := do
    let b ← testCommandEndM
    if b then pure ()
    else do
      let _ ← takeM
      go

/-- `discardGo` tied by plain recursion on the fuel. -/
def discardGo (fuel : Nat) : M Unit :=
  Nat.rec (throwE { kind := .outOfFuel }) (fun _ prev => discardGoBody prev) fuel


/-- `behind` trailing-whitespace adjustment of `parseCommand`
(`/\s(\s*)$/` group 1 length, 0 when there is no trailing whitespace). -/
def trailingWSAdjust (behind : List Char) : Nat :=
  (behind.reverse.takeWhile isWS).length - 1

/-- One step of the destination-name scan of the `/import` special case
(`x as y` registers `y`; the `as`/`y` pair is consumed only when both are
present). -/
def importGoBody (go : List (List Char) → List (List Char)) :
    List (List Char) → List (List Char)
  | [] => []
  | a :: b :: c :: rest =>
    if b = "as".toList then c :: go rest
    else a :: go (b :: c :: rest)
  | a :: rest => a :: go rest

/-- The scan tied by plain recursion on the fuel. -/
def importGo (fuel : Nat) : List (List Char) → List (List Char) :=
  Nat.rec (fun _ => []) (fun _ prev => importGoBody prev) fuel

/-- The destination names of an `/import` argument list (each step consumes
at least one element, so the fuel suffices). -/
def importDests (l : List (List Char)) : List (List Char) :=
  importGo (l.length + 1) l

/-- JavaScript `toString()` of an argument value as the parser uses it (for
scope registration and overflow rejoining).  Modelled from the spec for the
closure case (nominally its raw text). -/
def valToString (v : SCVal) : List Char :=
  match v with
  | .vstr s => s
  | .vclosure c => c.rawText

/-- `this.scope.variableNames.push(n)`. -/
def pushScopeVar (n : List Char) : M Unit := fun s =>
  match s.scope with
  | [] => .error { kind := .jsError }
  | fr :: rest => .ok ((), { s with scope := (fr ++ [n]) :: rest })

/-- A run of consecutive `this.scope.variableNames.push(..)` calls (the
`/import` destination loop): pushing nothing touches nothing, pushing onto
the absent scope is the TypeError of the first push. -/
def pushScopeVars (ns : List (List Char)) : M Unit := fun s =>
  match ns with
  | [] => .ok ((), s)
  | _ =>
    match s.scope with
    | [] => .error { kind := .jsError }
    | fr :: rest => .ok ((), { s with scope := (fr ++ ns) :: rest })

/-- The first-element trim of `parseUnnamedArgument`: left-trim the first
element unless it was quoted, dropping it if trimming empties it. -/
def trimFirstElem (lv : List SCUnnamedArg) (lq : List Bool) :
    List SCUnnamedArg × List Bool :=
  match lv with
  | [] => (lv, lq)
  | fv :: rest =>
    match fv.value with
    | some (.vstr str) =>
      let str2 := if lq.getD 0 false then str else trimStartL str
      if str2.length = 0 then (rest, lq.drop 1)
      else ({ fv with value := some (.vstr str2) } :: rest, lq)
    | _ => (lv, lq)

/-- The last-element trim of `parseUnnamedArgument` (right counterpart). -/
def trimLastElem (lv : List SCUnnamedArg) (lq : List Bool) :
    List SCUnnamedArg × List Bool :=
  match lv.getLast? with
  | none => (lv, lq)
  | some lastV =>
    match lastV.value with
    | some (.vstr str) =>
      let str2 := if lq.getD (lq.length - 1) false then str else trimEndL str
      if str2.length = 0 then (lv.dropLast, lq.dropLast)
      else (lv.dropLast ++ [{ lastV with value := some (.vstr str2) }], lq)
    | _ => (lv, lq)

/-- The overflow rejoining of capped splitting: concatenate the elements from
index `cap` on, re-adding quote characters around elements recorded as
quoted. -/
def rejoinOverflow (lv : List SCUnnamedArg) (lq : List Bool) (cap : Nat) :
    List Char :=
  ((List.range (lv.length - cap)).map (fun k =>
    let i := cap + k
    let v := match (lv.getD i { }).value with
      | some v => valToString v
      | none => "undefined".toList
    if lq.getD i false then '"' :: (v ++ ['"']) else v)).flatten

/-- The pending-scalar flush at the head of the list processing of
`parseUnnamedArgument`. -/
def ufFlush (value : List Char) (lv : List SCUnnamedArg) (lq : List Bool)
    (a : SCUnnamedArg) : List SCUnnamedArg × List Bool :=
  if value.length > 0 then
    (lv ++ [{ a with value := some (SCVal.vstr value) }], lq ++ [false])
  else (lv, lq)

/-- The capped-split overflow test of `parseUnnamedArgument`. -/
def ufRejoin (wasSplit : Bool) (splitCount : Option Nat)
    (lv : List SCUnnamedArg) : Bool :=
  match splitCount with
  | some cap => wasSplit && cap ≠ 0 && cap + 1 < lv.length
  | none => false

/-- The rejoined element list of the capped-split overflow case. -/
def ufJoined (splitCount : Option Nat) (lv : List SCUnnamedArg)
    (lq : List Bool) : List SCUnnamedArg :=
  let cap := splitCount.getD 0
  let joined : SCUnnamedArg :=
    { start := (lv.getD cap { }).start,
      stop := (lv.getD (lv.length - 1) { }).stop,
      value := some (SCVal.vstr (rejoinOverflow lv lq cap)) }
  lv.take cap ++ [joined]

/-- The final list/scalar processing of `parseUnnamedArgument` after its
scanning loop. -/
def unnamedFinish (wasSplit : Bool) (splitCount : Option Nat)
    (r : List Char × Bool × List SCUnnamedArg × List Bool × SCUnnamedArg × Bool) :
    M (List SCUnnamedArg × List Bool) := do
  let (value, isList, listValues, listQuoted, assignment, _) := r
  let s3 ← getS
  if isList then do
    let p1 := ufFlush value listValues listQuoted assignment
    let p2 := trimFirstElem p1.1 p1.2
    let p3 := trimLastElem p2.1 p2.2
    if ufRejoin wasSplit splitCount p3.1 then do
      modifyS (fun s =>
        { s with droppedClosures :=
            s.droppedClosures + countUnnamedList (p3.1.drop (splitCount.getD 0)) })
      pure (ufJoined splitCount p3.1 p3.2, p3.2)
    else pure p3
  else do
    indexMacrosM ((s3.index : Int) - value.length) value
    let value := trimBothL value
    let s4 ← getS
    let value ← if s4.flags.replaceGetvar then replaceGetvarM value else pure value
    pure ([{ assignment with value := some (SCVal.vstr value) }], [])

end STScript

namespace STScript

/-- The recursive knot of the mutually recursive parse functions: one record
of the parser entry points at a given fuel.  The defaults are the fuel-zero
behaviour (the fuel sentinel); `stepFns` below builds the functions at fuel
`n + 1` from the functions at fuel `n`, and `recFns` ties the knot by plain
recursion on the fuel. -/
structure RecFns where
  parseClosureF : Bool → M SCClosure := fun _ => throwE { kind := .outOfFuel }
  closureArgsF : M Unit := throwE { kind := .outOfFuel }
  closureStmtF : Bool → M Unit := fun _ => throwE { kind := .outOfFuel }
  closureDispatchF : Bool → M Bool := fun _ => throwE { kind := .outOfFuel }
  parseNamedArgF : M SCNamedArg := throwE { kind := .outOfFuel }
  cmdNamedArgsF : SCExecutor → M SCExecutor := fun _ => throwE { kind := .outOfFuel }
  parseCommandF : M (SCExecutor × Nat) := throwE { kind := .outOfFuel }
  runNamedArgsF : SCExecutor → M SCExecutor := fun _ => throwE { kind := .outOfFuel }
  parseRunShorthandF : M SCExecutor := throwE { kind := .outOfFuel }
  parseBreakF : M SCExecutor := throwE { kind := .outOfFuel }
  parseParserFlagF : M Unit := throwE { kind := .outOfFuel }
  parseUnnamedFullF : Bool → Option Nat → Bool → M (List SCUnnamedArg × List Bool) :=
    fun _ _ _ => throwE { kind := .outOfFuel }
  unnamedGoF : Bool → Option Nat → List Char → Bool → List SCUnnamedArg → List Bool →
      SCUnnamedArg → Bool →
      M (List Char × Bool × List SCUnnamedArg × List Bool × SCUnnamedArg × Bool) :=
    fun _ _ _ _ _ _ _ _ => throwE { kind := .outOfFuel }
  unnamedStepF : Bool → Option Nat → List Char → Bool → List SCUnnamedArg → List Bool →
      SCUnnamedArg → Bool →
      M (List Char × Bool × List SCUnnamedArg × List Bool × SCUnnamedArg × Bool) :=
    fun _ _ _ _ _ _ _ _ => throwE { kind := .outOfFuel }
  unnamedTailF : Bool → Option Nat → List Char → List SCUnnamedArg → List Bool →
      SCUnnamedArg → Bool →
      M (List Char × Bool × List SCUnnamedArg × List Bool × SCUnnamedArg × Bool) :=
    fun _ _ _ _ _ _ _ => throwE { kind := .outOfFuel }
  parseUnnamedF : Bool → Option Nat → Bool → M (List SCUnnamedArg) :=
    fun _ _ _ => throwE { kind := .outOfFuel }
  blockCommentLoopF : M Unit := throwE { kind := .outOfFuel }
  parseBlockCommentF : M Unit := throwE { kind := .outOfFuel }

/-- `parseClosure(isRoot)`: pushes a span-index placeholder, creates the
closure and its child scope, parses parameter declarations and the statement
loop, and on exit records the raw text span, finalises the index entry and
restores the caller's scope and closure. -/
def parseClosureFBody (go : RecFns) (isRootA : Bool) : M SCClosure := do
  let isRoot := isRootA
  let s0 ← getS
  let idxPos := s0.closureIndex.length
  modifyS (fun s =>
    { s with closureIndex := s.closureIndex ++ [((s.index : Int) + 1, none)] })
  if !isRoot then takeN 2 else pure ()
  let sA ← getS
  let textStart := sA.index
  let closure0 : SCClosure :=
    { scope := [] :: sA.scope, parserContext := sA.parserContext,
      fullText := sA.text, abortAttached := sA.abortAttached,
      debugAttached := sA.debugAttached }
  let oldClosure := sA.closure
  modifyS (fun s => { s with scope := [] :: s.scope, closure := some closure0 })
  discardWhitespaceM
  go.closureArgsF
  go.closureStmtF true
  let s1 ← getS
  modifyS (fun s =>
    match s.closure with
    | some c =>
      { s with closure := some { c with rawText := (s1.text.take s1.index).drop textStart } }
    | none => s)
  if !isRoot then takeN 2 else pure ()
  let b ← testSymbolM patParens 0
  if b then do
    takeN 2
    modifyS (fun s =>
      match s.closure with
      | some c => { s with closure := some { c with executeNow := true } }
      | none => s)
  else pure ()
  let s2 ← getS
  modifyS (fun s =>
    { s with closureIndex :=
        s.closureIndex.set idxPos ((s0.index : Int) + 1, some ((s2.index : Int) - 1)) })
  let s3 ← getS
  let result :=
    match s3.closure with
    | some c => { c with scope := s3.scope }
    | none => closure0
  modifyS (fun s =>
    { s with
      scope := s.scope.drop 1,
      closure := match oldClosure with | some c0 => some c0 | none => some result })
  pure result

/-- The leading parameter-declaration loop of `parseClosure`
(`while (this.testNamedArgument()) ...`). -/
def closureArgsFBody (go : RecFns) : M Unit := do
  let b ← testNamedArgumentM
  if b then do
    let arg ← go.parseNamedArgF
    modifyS (fun s =>
      match s.closure with
      | some c =>
        { s with closure := some { c with argumentList := c.argumentList ++ [arg] } }
      | none => s)
    pushScopeVar arg.aname
    discardWhitespaceM
    go.closureArgsF
  else pure ()

/-- The statement loop of `parseClosure`, with the `injectPipe` local
threaded through iterations.  One iteration dispatches one statement and
then consumes the pipe separators. -/
def closureStmtFBody (go : RecFns) (ipA : Bool) : M Unit := do
  let injectPipe := ipA
  let bEnd ← testClosureEndM
  if bEnd then pure ()
  else do
    let injectPipe ← go.closureDispatchF injectPipe
    discardWhitespaceM
    let p1 ← testSymbolM patPipe 0
    let injectPipe ← (if p1 then do
        let _ ← takeM
        let p2 ← testSymbolM patPipe 0
        if p2 then do
          let _ ← takeM
          pure false
        else pure injectPipe
      else pure injectPipe)
    discardWhitespaceM
    go.closureStmtF injectPipe

/-- The statement dispatch of the closure loop (the if/else-if chain),
returning the updated `injectPipe` local. -/
def closureDispatchFBody (go : RecFns) (ipA : Bool) : M Bool := do
  let injectPipe := ipA
  let b1 ← testBlockCommentM
  if b1 then do
    go.parseBlockCommentF
    pure injectPipe
  else do
  let b2 ← testCommentM
  if b2 then do
    parseCommentM
    pure injectPipe
  else do
  let b3 ← testParserFlagM
  if b3 then do
    go.parseParserFlagF
    pure injectPipe
  else do
  let b4 ← testRunShorthandM
  if b4 then do
    let cmd ← go.parseRunShorthandF
    modifyS (fun s =>
      match s.closure with
      | some c =>
        { s with closure := some { c with executorList := c.executorList ++ [cmd] } }
      | none => s)
    pure true
  else do
  let b5 ← testBreakPointM
  if b5 then do
    let bp ← parseBreakPointM
    let s ← getS
    if s.debugAttached then
      modifyS (fun s1 =>
        match s1.closure with
        | some c =>
          { s1 with closure := some { c with executorList := c.executorList ++ [bp] } }
        | none => s1)
    else pure ()
    pure injectPipe
  else do
  let b6 ← testBreakM
  if b6 then do
    let bk ← go.parseBreakF
    modifyS (fun s =>
      match s.closure with
      | some c =>
        { s with closure := some { c with executorList := c.executorList ++ [bk] } }
      | none => s)
    pure injectPipe
  else do
  let b7 ← testCommandM
  if b7 then do
    let cp ← go.parseCommandF
    let cmd := { cp.1 with injectPipe := some injectPipe }
    modifyS (fun s =>
      { s with commandIndex := s.commandIndex.set cp.2 cmd })
    modifyS (fun s =>
      match s.closure with
      | some c =>
        { s with closure := some { c with executorList := c.executorList ++ [cmd] } }
      | none => s)
    pure true
  else do
    withFuel discardGo
    pure injectPipe

/-- `parseNamedArgument()`. -/
def parseNamedArgFBody (go : RecFns) : M SCNamedArg := do
  let s0 ← getS
  let start : Int := (s0.index : Int)
  let key ← withFuel (fun f => keyGo f [])
  let _ ← takeM
  let b1 ← testClosureM
  let value ← (if b1 then do
      let c ← go.parseClosureF false
      pure (some (SCVal.vclosure c))
    else do
      let b2 ← testQuotedValueM
      if b2 then do
        let v ← parseQuotedValueM
        pure (some (SCVal.vstr v))
      else do
        let b3 ← testListValueM
        if b3 then do
          let v ← parseListValueM
          pure (some (SCVal.vstr v))
        else do
          let b4 ← testValueM
          if b4 then do
            let v ← parseValueM
            pure (some (SCVal.vstr v))
          else pure none)
  let s1 ← getS
  pure { aname := key, value := value, start := some start, stop := some (s1.index : Int) }

/-- The named-argument loop of `parseCommand` (updates `endNamedArgs` after
each parsed argument). -/
def cmdNamedArgsFBody (go : RecFns) (cmdA : SCExecutor) : M SCExecutor := do
  let cmd := cmdA
  let b ← testNamedArgumentM
  if b then do
    let arg ← go.parseNamedArgF
    let s ← getS
    let cmd :=
      { cmd with
        namedArgumentList := cmd.namedArgumentList ++ [arg],
        stopNamedArgs := some (s.index : Int) }
    discardWhitespaceM
    go.cmdNamedArgsF cmd
  else pure cmd

/-- `parseCommand()`: the generic-command parser.  The executor snapshots
the live parser flags at creation; `/let` and `/import` register their
destination names into the current scope as a parse-time side effect.
Returns the executor together with its position in the command index (the
source mutates one shared object; the caller writes the `injectPipe` update
back through this position). -/
def parseCommandFBody (go : RecFns) : M (SCExecutor × Nat) := do
  let s0 ← getS
  let cmd : SCExecutor :=
    { start := some ((s0.index : Int) + 1), parserFlags := some s0.flags }
  let pos := s0.commandIndex.length
  modifyS (fun s =>
    { s with
      commandIndex := s.commandIndex ++ [cmd],
      scopeIndex := s.scopeIndex ++ [s.scope] })
  let _ ← takeM
  let nm ← withFuel (fun f => nameGo f [])
  let cmd := { cmd with ename := nm }
  discardWhitespaceM
  let s1 ← getS
  if s1.verifyCommandNames && (commandsLookup nm).isNone then
    throwE { kind := .unknownCommand, offset := some ((s1.index : Int) - nm.length) }
  else pure ()
  let cmd := { cmd with command := commandsLookup nm }
  let s2 ← getS
  let cmd :=
    { cmd with
      startNamedArgs := some (s2.index : Int),
      stopNamedArgs := some (s2.index : Int) }
  let cmd ← go.cmdNamedArgsF cmd
  discardWhitespaceM
  let s3 ← getS
  let cmd :=
    { cmd with
      startUnnamedArgs := some ((s3.index : Int) - trailingWSAdjust s3.behind),
      stopUnnamedArgs := some (s3.index : Int) }
  let bUn ← testUnnamedArgumentM
  let cmd ← (if bUn then do
      let rawQuotesArg := cmd.namedArgumentList.find? (fun a => a.aname = "raw".toList)
      let cmdRaw := match cmd.command with | some c => c.rawQuotes | none => false
      let rawQuotes :=
        match rawQuotesArg with
        | some a =>
          if cmdRaw then
            !(isFalseBooleanL
              (match a.value with | some v => valToString v | none => "undefined".toList))
          else cmdRaw
        | none => cmdRaw
      let split :=
        match cmd.command with
        | some c => c.unnamedArgCount ≠ 0 && c.splitUnnamedArgument
        | none => false
      let splitCount :=
        match cmd.command with
        | some c => c.splitUnnamedArgumentCount
        | none => none
      let args ← go.parseUnnamedF split splitCount rawQuotes
      let s4 ← getS
      let cmd :=
        { cmd with
          unnamedArgumentList := args,
          stopUnnamedArgs := some (s4.index : Int) }
      if nm = "let".toList then
        match cmd.namedArgumentList.find? (fun a => a.aname = "key".toList) with
        | some keyArg =>
          pushScopeVar
            (match keyArg.value with | some v => valToString v | none => "undefined".toList)
        | none =>
          match args.head? with
          | some a =>
            match a.value with
            | some (.vstr v) => pushScopeVar v
            | _ => pure ()
          | none => pure ()
      else if nm = "import".toList then
        let vals := args.map (fun a =>
          match a.value with | some v => valToString v | none => "undefined".toList)
        pushScopeVars (importDests vals)
      else pure ()
      pure cmd
    else pure cmd)
  let bEnd ← testCommandEndM
  if bEnd then do
    let s5 ← getS
    let cmd := { cmd with stop := some (s5.index : Int) }
    modifyS (fun s => { s with commandIndex := s.commandIndex.set pos cmd })
    pure (cmd, pos)
  else do
    let s5 ← getS
    throwE { kind := .unexpectedCommandEnd, offset := some (s5.index : Int) }

/-- The named-argument loop of `parseRunShorthand` (it does not update
`endNamedArgs` per iteration). -/
def runNamedArgsFBody (go : RecFns) (cmdA : SCExecutor) : M SCExecutor := do
  let cmd := cmdA
  let b ← testNamedArgumentM
  if b then do
    let arg ← go.parseNamedArgF
    let cmd := { cmd with namedArgumentList := cmd.namedArgumentList ++ [arg] }
    discardWhitespaceM
    go.runNamedArgsF cmd
  else pure cmd

/-- `parseRunShorthand()`. -/
def parseRunShorthandFBody (go : RecFns) : M SCExecutor := do
  let s0 ← getS
  let cmd : SCExecutor :=
    { ename := ":".toList, command := commandsLookup "run".toList,
      start := some ((s0.index : Int) + 2) }
  let pos := s0.commandIndex.length
  modifyS (fun s =>
    { s with
      commandIndex := s.commandIndex ++ [cmd],
      scopeIndex := s.scopeIndex ++ [s.scope] })
  takeN 2
  let bq ← testQuotedValueM
  let v ← if bq then parseQuotedValueM else parseValueM
  let cmd := { cmd with unnamedArgumentList := [{ value := some (.vstr v) }] }
  discardWhitespaceM
  let s1 ← getS
  let cmd := { cmd with startNamedArgs := some (s1.index : Int) }
  let cmd ← go.runNamedArgsF cmd
  let s2 ← getS
  let cmd := { cmd with stopNamedArgs := some (s2.index : Int) }
  discardWhitespaceM
  let bEnd ← testCommandEndM
  if bEnd then do
    let s3 ← getS
    let cmd := { cmd with stop := some (s3.index : Int) }
    modifyS (fun s => { s with commandIndex := s.commandIndex.set pos cmd })
    pure cmd
  else do
    let s3 ← getS
    throwE { kind := .unexpectedCommandEnd, offset := some (s3.index : Int) }

/-- `parseBreak()`. -/
def parseBreakFBody (go : RecFns) : M SCExecutor := do
  let s0 ← getS
  let cmd : SCExecutor :=
    { kindE := .breakKind, ename := "break".toList,
      command := commandsLookup "break".toList,
      start := some ((s0.index : Int) + 1) }
  takeN 6
  discardWhitespaceM
  let bUn ← testUnnamedArgumentM
  let cmd ← (if bUn then do
      let args ← go.parseUnnamedF false none false
      pure { cmd with unnamedArgumentList := cmd.unnamedArgumentList ++ args }
    else pure cmd)
  let s1 ← getS
  let cmd := { cmd with stop := some (s1.index : Int) }
  modifyS (fun s =>
    { s with
      commandIndex := s.commandIndex ++ [cmd],
      scopeIndex := s.scopeIndex ++ [s.scope] })
  pure cmd

/-- `parseParserFlag()`: parses `/parser-flag name [state]` and mutates the
live flag state.  The executor is recorded in the command index but not in
any executor list; the ghost counter `droppedClosures` counts the closures
inside its discarded arguments (instrumentation only). -/
def parseParserFlagFBody (go : RecFns) : M Unit := do
  let s0 ← getS
  let cmd : SCExecutor :=
    { ename := "parser-flag".toList,
      command := commandsLookup "parser-flag".toList,
      start := some ((s0.index : Int) + 1),
      startNamedArgs := some (-1), stopNamedArgs := some (-1) }
  let pos := s0.commandIndex.length
  modifyS (fun s =>
    { s with
      commandIndex := s.commandIndex ++ [cmd],
      scopeIndex := s.scopeIndex ++ [s.scope] })
  takeN 13
  let s1 ← getS
  let cmd := { cmd with startUnnamedArgs := some (s1.index : Int) }
  let args ← go.parseUnnamedF true none false
  let s2 ← getS
  let cmd :=
    { cmd with
      unnamedArgumentList := args,
      stopUnnamedArgs := some (s2.index : Int) }
  modifyS (fun s =>
    { s with droppedClosures := s.droppedClosures + countUnnamedList args })
  match args.head? with
  | none => throwE { kind := .jsError }
  | some flagArg => do
    let flagStr := match flagArg.value with
      | some v => valToString v
      | none => "undefined".toList
    let stateStr := match args.get? 1 with
      | none => "on".toList
      | some a =>
        match a.value with
        | some v => valToString v
        | none => "undefined".toList
    if flagStr = "STRICT_ESCAPING".toList then
      modifyS (fun s =>
        { s with flags := { s.flags with strictEscaping := isTrueBooleanL stateStr } })
    else if flagStr = "REPLACE_GETVAR".toList then
      modifyS (fun s =>
        { s with flags := { s.flags with replaceGetvar := isTrueBooleanL stateStr } })
    else pure ()
    let s3 ← getS
    let cmd := { cmd with stop := some (s3.index : Int) }
    modifyS (fun s => { s with commandIndex := s.commandIndex.set pos cmd })

/-- `parseUnnamedArgument(split, splitCount, rawQuotes)` with the internal
`listQuoted` bookkeeping also returned (the JavaScript function returns only
the assignment list; see `parseUnnamedArgumentFn`). -/
def parseUnnamedFullFBody (go : RecFns) (splitA : Bool)
  (splitCountA : Option Nat) (rawQuotesA : Bool) :
  M (List SCUnnamedArg × List Bool) := do
  let split := splitA
  let splitCount := splitCountA
  let rawQuotes := rawQuotesA
  let wasSplit := split
  let s0 ← getS
  let value ← (if s0.jumpedEscapeSequence then do
      let c ← takeM
      pure (appendTaken [] c)
    else pure ([] : List Char))
  let isList := split
  let s1 ← getS
  let assignment : SCUnnamedArg := { start := some (s1.index : Int) }
  let startQ ← (if !split && !rawQuotes then testQuotedValueM else pure false)
  if startQ then do
    let v ← parseQuotedValueM
    let s2 ← getS
    let a1 := { assignment with value := some (SCVal.vstr v), stop := some (s2.index : Int) }
    let assignment2 : SCUnnamedArg := { start := some (s2.index : Int) }
    let r ← go.unnamedGoF split splitCount value true [a1] [true] assignment2 wasSplit
    unnamedFinish wasSplit splitCount r
  else do
    let r ← go.unnamedGoF split splitCount value isList [] [] assignment wasSplit
    unnamedFinish wasSplit splitCount r

/-- The scanning loop of `parseUnnamedArgument`.  Returns the final
`(value, isList, listValues, listQuoted, assignment, split)` locals. -/
def unnamedGoFBody (go : RecFns) (splitA : Bool) (splitCountA : Option Nat)
  (valueA : List Char) (isListA : Bool) (listValuesA : List SCUnnamedArg)
  (listQuotedA : List Bool) (assignmentA : SCUnnamedArg) (wasSplitA : Bool) :
  M (List Char × Bool × List SCUnnamedArg × List Bool × SCUnnamedArg × Bool) := do
  let split := splitA
  let splitCount := splitCountA
  let value := valueA
  let isList := isListA
  let listValues := listValuesA
  let listQuoted := listQuotedA
  let assignment := assignmentA
  let wasSplit := wasSplitA
  let bEnd ← testUnnamedArgumentEndM
  if bEnd then pure (value, isList, listValues, listQuoted, assignment, split)
  else do
    let capReached :=
      split && (match splitCount with
        | some cap => cap ≠ 0 && decide (listValues.length ≥ cap)
        | none => false)
    if capReached then do
      let bq ← testQuotedValueM
      if bq then do
        let v ← parseQuotedValueM
        let s1 ← getS
        let a1 :=
          { assignment with value := some (SCVal.vstr v), stop := some (s1.index : Int) }
        let assignment2 : SCUnnamedArg := { start := some (s1.index : Int) }
        go.unnamedStepF false splitCount value isList (listValues ++ [a1])
          (listQuoted ++ [true]) assignment2 wasSplit
      else
        go.unnamedStepF false splitCount value isList listValues listQuoted assignment wasSplit
    else
      go.unnamedStepF split splitCount value isList listValues listQuoted assignment wasSplit

/-- One dispatch step of the `parseUnnamedArgument` loop after the
split-count check: embedded closure, split-mode token, or plain character
accumulation. -/
def unnamedStepFBody (go : RecFns) (splitA : Bool) (splitCountA : Option Nat)
  (valueA : List Char) (isListA : Bool) (listValuesA : List SCUnnamedArg)
  (listQuotedA : List Bool) (assignmentA : SCUnnamedArg) (wasSplitA : Bool) :
  M (List Char × Bool × List SCUnnamedArg × List Bool × SCUnnamedArg × Bool) := do
  let split := splitA
  let splitCount := splitCountA
  let value := valueA
  let isList := isListA
  let listValues := listValuesA
  let listQuoted := listQuotedA
  let assignment := assignmentA
  let wasSplit := wasSplitA
  let bClosure ← testClosureM
  if bClosure then do
    let _ := isList
    if value.length > 0 then do
      let s0 ← getS
      indexMacrosM ((s0.index : Int) - value.length) value
      let a1 := { assignment with value := some (SCVal.vstr value) }
      let listValues := listValues ++ [a1]
      let listQuoted := listQuoted ++ [false]
      let s1 ← getS
      let assignment2 : SCUnnamedArg := { start := some (s1.index : Int) }
      let bq ← (if !split then testQuotedValueM else pure false)
      if bq then do
        let v ← parseQuotedValueM
        let s2 ← getS
        let a2 := { assignment2 with value := some (SCVal.vstr v), stop := some (s2.index : Int) }
        let assignment3 : SCUnnamedArg := { start := some (s2.index : Int) }
        go.unnamedTailF split splitCount value (listValues ++ [a2])
          (listQuoted ++ [true]) assignment3 wasSplit
      else
        go.unnamedTailF split splitCount [] listValues listQuoted assignment2 wasSplit
    else
      go.unnamedTailF split splitCount value listValues listQuoted assignment wasSplit
  else if split then do
    let bq ← testQuotedValueM
    if bq then do
      let s0 ← getS
      let assignment := { assignment with start := some (s0.index : Int) }
      let v ← parseQuotedValueM
      let s1 ← getS
      let a1 := { assignment with value := some (SCVal.vstr v), stop := some (s1.index : Int) }
      discardWhitespaceM
      go.unnamedGoF split splitCount value isList (listValues ++ [a1])
        (listQuoted ++ [true]) ({ } : SCUnnamedArg) wasSplit
    else do
      let bl ← testListValueM
      if bl then do
        let s0 ← getS
        let assignment := { assignment with start := some (s0.index : Int) }
        let v ← parseListValueM
        let s1 ← getS
        let a1 := { assignment with value := some (SCVal.vstr v), stop := some (s1.index : Int) }
        discardWhitespaceM
        go.unnamedGoF split splitCount value isList (listValues ++ [a1])
          (listQuoted ++ [false]) ({ } : SCUnnamedArg) wasSplit
      else do
        let bv ← testValueM
        if bv then do
          let s0 ← getS
          let assignment := { assignment with start := some (s0.index : Int) }
          let v ← parseValueM
          let s1 ← getS
          let a1 := { assignment with value := some (SCVal.vstr v), stop := some (s1.index : Int) }
          discardWhitespaceM
          go.unnamedGoF split splitCount value isList (listValues ++ [a1])
            (listQuoted ++ [false]) ({ } : SCUnnamedArg) wasSplit
        else throwE { kind := .unexpectedArgumentEnd }
  else do
    let c ← takeM
    let value := appendTaken value c
    let s0 ← getS
    let assignment := { assignment with stop := some (s0.index : Int) }
    go.unnamedGoF split splitCount value isList listValues listQuoted assignment wasSplit

/-- The closure-parsing tail of the embedded-closure branch of the
`parseUnnamedArgument` loop. -/
def unnamedTailFBody (go : RecFns) (splitA : Bool) (splitCountA : Option Nat)
  (valueA : List Char) (listValuesA : List SCUnnamedArg)
  (listQuotedA : List Bool) (assignmentA : SCUnnamedArg) (wasSplitA : Bool) :
  M (List Char × Bool × List SCUnnamedArg × List Bool × SCUnnamedArg × Bool) := do
  let split := splitA
  let splitCount := splitCountA
  let value := valueA
  let listValues := listValuesA
  let listQuoted := listQuotedA
  let assignment := assignmentA
  let wasSplit := wasSplitA
  let s2 ← getS
  let assignment := { assignment with start := some (s2.index : Int) }
  let c ← go.parseClosureF false
  let s3 ← getS
  let a2 := { assignment with value := some (SCVal.vclosure c), stop := some (s3.index : Int) }
  let s4 ← getS
  let assignment2 : SCUnnamedArg := { start := some (s4.index : Int) }
  if split then discardWhitespaceM else pure ()
  go.unnamedGoF split splitCount value true (listValues ++ [a2]) listQuoted assignment2 wasSplit

/-- `parseUnnamedArgument` as the source returns it (the assignment list
without the internal quoting bookkeeping). -/
def parseUnnamedFBody (go : RecFns) (splitA : Bool) (splitCountA : Option Nat)
  (rawQuotesA : Bool) : M (List SCUnnamedArg) := do
  let split := splitA
  let splitCount := splitCountA
  let rawQuotes := rawQuotesA
  let r ← go.parseUnnamedFullF split splitCount rawQuotes
  pure r.1

/-- The skipping loop of `parseBlockComment` (block comments nest). -/
def blockCommentLoopFBody (go : RecFns) : M Unit := do
  let b ← testBlockCommentEndM
  if b then pure ()
  else do
    let bb ← testBlockCommentM
    if bb then go.parseBlockCommentF else pure ()
    let _ ← takeM
    go.blockCommentLoopF

/-- `parseBlockComment()`. -/
def parseBlockCommentFBody (go : RecFns) : M Unit := do
  let s0 ← getS
  let start : Int := (s0.index : Int) + 1
  let cmd0 : SCExecutor := { start := some start, command := commandsLookup "*".toList }
  let pos := s0.commandIndex.length
  modifyS (fun s =>
    { s with
      commandIndex := s.commandIndex ++ [cmd0],
      scopeIndex := s.scopeIndex ++ [s.scope] })
  let _ ← takeM
  let c ← takeM
  let nm := appendTaken [] c
  go.blockCommentLoopF
  takeN 2
  let s1 ← getS
  let cmd1 := { cmd0 with ename := nm, stop := some ((s1.index : Int) - 1) }
  modifyS (fun s => { s with commandIndex := s.commandIndex.set pos cmd1 })


/-- The parse functions at fuel `n + 1` in terms of those at fuel `n`. -/
def stepFns (go : RecFns) : RecFns :=
  { parseClosureF := parseClosureFBody go,
    closureArgsF := closureArgsFBody go,
    closureStmtF := closureStmtFBody go,
    closureDispatchF := closureDispatchFBody go,
    parseNamedArgF := parseNamedArgFBody go,
    cmdNamedArgsF := cmdNamedArgsFBody go,
    parseCommandF := parseCommandFBody go,
    runNamedArgsF := runNamedArgsFBody go,
    parseRunShorthandF := parseRunShorthandFBody go,
    parseBreakF := parseBreakFBody go,
    parseParserFlagF := parseParserFlagFBody go,
    parseUnnamedFullF := parseUnnamedFullFBody go,
    unnamedGoF := unnamedGoFBody go,
    unnamedStepF := unnamedStepFBody go,
    unnamedTailF := unnamedTailFBody go,
    parseUnnamedF := parseUnnamedFBody go,
    blockCommentLoopF := blockCommentLoopFBody go,
    parseBlockCommentF := parseBlockCommentFBody go }

/-- The parse functions at a given fuel. -/
def recFns (fuel : Nat) : RecFns :=
  Nat.rec { } (fun _ prev => stepFns prev) fuel

/-- `parseClosure(isRoot)` at explicit fuel. -/
def parseClosureFn (fuel : Nat) (isRootA : Bool) : M SCClosure :=
  (recFns fuel).parseClosureF isRootA

/-- `parseCommand()` at explicit fuel. -/
def parseCommandFn (fuel : Nat) : M (SCExecutor × Nat) :=
  (recFns fuel).parseCommandF

/-- `parseNamedArgument()` at explicit fuel. -/
def parseNamedArgumentFn (fuel : Nat) : M SCNamedArg :=
  (recFns fuel).parseNamedArgF

/-- `parseRunShorthand()` at explicit fuel. -/
def parseRunShorthandFn (fuel : Nat) : M SCExecutor :=
  (recFns fuel).parseRunShorthandF

/-- `parseBreak()` at explicit fuel. -/
def parseBreakFn (fuel : Nat) : M SCExecutor :=
  (recFns fuel).parseBreakF

/-- `parseParserFlag()` at explicit fuel. -/
def parseParserFlagFn (fuel : Nat) : M Unit :=
  (recFns fuel).parseParserFlagF

/-- `parseUnnamedArgument(split, splitCount, rawQuotes)` at explicit fuel,
with the internal `listQuoted` bookkeeping also returned. -/
def parseUnnamedArgumentFull (fuel : Nat) (splitA : Bool) (splitCountA : Option Nat)
    (rawQuotesA : Bool) : M (List SCUnnamedArg × List Bool) :=
  (recFns fuel).parseUnnamedFullF splitA splitCountA rawQuotesA

/-- `parseUnnamedArgument` as the source returns it. -/
def parseUnnamedArgumentFn (fuel : Nat) (splitA : Bool) (splitCountA : Option Nat)
    (rawQuotesA : Bool) : M (List SCUnnamedArg) :=
  (recFns fuel).parseUnnamedF splitA splitCountA rawQuotesA

end STScript

namespace STScript

/-- The per-parse configuration: the `parse` arguments together with the
ambient inputs the source reads from module state (`power_user` flag
defaults, the experimental-macro-engine switch and the unique-id source). -/
structure ParseCfg where
  verifyCommandNames : Bool := true
  flagsArg : Option PFlags := none
  ambientFlags : PFlags := {}
  uuidSource : Nat → List Char := fun _ => []
  experimentalMacroEngine : Bool := false
  abortAttached : Bool := false
  debugAttached : Bool := false
  fuel : Nat := 1000

/-- `parse(text, verifyCommandNames, flags, abortController, debugController)`
on a fresh parser instance: resets the cursor, scope and the four indexes,
draws a fresh parser context id, and parses the root closure. -/
def parse (text : List Char) (cfg : ParseCfg) : Except PErr (SCClosure × PState) :=
  let flags := match cfg.flagsArg with
    | some f => f
    | none => cfg.ambientFlags
  let s0 : PState :=
    { text := text, index := 0, flags := flags,
      verifyCommandNames := cfg.verifyCommandNames,
      jumpedEscapeSequence := false, scope := [], closure := none,
      closureIndex := [], commandIndex := [], scopeIndex := [], macroIndex := [],
      parserContext := cfg.uuidSource 0, uuidSource := cfg.uuidSource,
      uuidCount := 1, experimentalMacroEngine := cfg.experimentalMacroEngine,
      abortAttached := cfg.abortAttached, debugAttached := cfg.debugAttached,
      droppedClosures := 0 }
  parseClosureFn cfg.fuel true s0

/-- The parse result projected to the produced tree. -/
def parseTree (text : List Char) (cfg : ParseCfg) : Except PErr SCClosure :=
  match parse text cfg with
  | .error e => .error e
  | .ok (c, _) => .ok c

/-- The string value of an unnamed argument, if it is a string. -/
def uargStr (a : SCUnnamedArg) : Option (List Char) :=
  match a.value with
  | some (.vstr s) => some s
  | _ => none

/-- The unnamed-argument string values of an executor. -/
def ExecutorG.unnamedStrs (e : SCExecutor) : List (Option (List Char)) :=
  e.unnamedArgumentList.map uargStr

end STScript

namespace STScript

/-- Fuel-peeling equations for each entry point: the functions at fuel `f`
are the fuel-zero defaults or the bodies over the functions at `f - 1`.
These drive symbolic evaluation of concrete parses. -/
theorem recFns_parseClosureF (f : Nat) :
    (recFns f).parseClosureF =
      (if f = 0 then fun _ => throwE { kind := .outOfFuel }
        else parseClosureFBody (recFns (f - 1))) := by
  cases f <;> rfl

theorem recFns_closureArgsF (f : Nat) :
    (recFns f).closureArgsF =
      (if f = 0 then throwE { kind := .outOfFuel }
        else closureArgsFBody (recFns (f - 1))) := by
  cases f <;> rfl

theorem recFns_closureStmtF (f : Nat) :
    (recFns f).closureStmtF =
      (if f = 0 then fun _ => throwE { kind := .outOfFuel }
        else closureStmtFBody (recFns (f - 1))) := by
  cases f <;> rfl

theorem recFns_closureDispatchF (f : Nat) :
    (recFns f).closureDispatchF =
      (if f = 0 then fun _ => throwE { kind := .outOfFuel }
        else closureDispatchFBody (recFns (f - 1))) := by
  cases f <;> rfl

theorem recFns_parseNamedArgF (f : Nat) :
    (recFns f).parseNamedArgF =
      (if f = 0 then throwE { kind := .outOfFuel }
        else parseNamedArgFBody (recFns (f - 1))) := by
  cases f <;> rfl

theorem recFns_cmdNamedArgsF (f : Nat) :
    (recFns f).cmdNamedArgsF =
      (if f = 0 then fun _ => throwE { kind := .outOfFuel }
        else cmdNamedArgsFBody (recFns (f - 1))) := by
  cases f <;> rfl

theorem recFns_parseCommandF (f : Nat) :
    (recFns f).parseCommandF =
      (if f = 0 then throwE { kind := .outOfFuel }
        else parseCommandFBody (recFns (f - 1))) := by
  cases f <;> rfl

theorem recFns_runNamedArgsF (f : Nat) :
    (recFns f).runNamedArgsF =
      (if f = 0 then fun _ => throwE { kind := .outOfFuel }
        else runNamedArgsFBody (recFns (f - 1))) := by
  cases f <;> rfl

theorem recFns_parseRunShorthandF (f : Nat) :
    (recFns f).parseRunShorthandF =
      (if f = 0 then throwE { kind := .outOfFuel }
        else parseRunShorthandFBody (recFns (f - 1))) := by
  cases f <;> rfl

theorem recFns_parseBreakF (f : Nat) :
    (recFns f).parseBreakF =
      (if f = 0 then throwE { kind := .outOfFuel }
        else parseBreakFBody (recFns (f - 1))) := by
  cases f <;> rfl

theorem recFns_parseParserFlagF (f : Nat) :
    (recFns f).parseParserFlagF =
      (if f = 0 then throwE { kind := .outOfFuel }
        else parseParserFlagFBody (recFns (f - 1))) := by
  cases f <;> rfl

theorem recFns_parseUnnamedFullF (f : Nat) :
    (recFns f).parseUnnamedFullF =
      (if f = 0 then fun _ _ _ => throwE { kind := .outOfFuel }
        else parseUnnamedFullFBody (recFns (f - 1))) := by
  cases f <;> rfl

theorem recFns_unnamedGoF (f : Nat) :
    (recFns f).unnamedGoF =
      (if f = 0 then fun _ _ _ _ _ _ _ _ => throwE { kind := .outOfFuel }
        else unnamedGoFBody (recFns (f - 1))) := by
  cases f <;> rfl

theorem recFns_unnamedStepF (f : Nat) :
    (recFns f).unnamedStepF =
      (if f = 0 then fun _ _ _ _ _ _ _ _ => throwE { kind := .outOfFuel }
        else unnamedStepFBody (recFns (f - 1))) := by
  cases f <;> rfl

theorem recFns_unnamedTailF (f : Nat) :
    (recFns f).unnamedTailF =
      (if f = 0 then fun _ _ _ _ _ _ _ => throwE { kind := .outOfFuel }
        else unnamedTailFBody (recFns (f - 1))) := by
  cases f <;> rfl

theorem recFns_parseUnnamedF (f : Nat) :
    (recFns f).parseUnnamedF =
      (if f = 0 then fun _ _ _ => throwE { kind := .outOfFuel }
        else parseUnnamedFBody (recFns (f - 1))) := by
  cases f <;> rfl

theorem recFns_blockCommentLoopF (f : Nat) :
    (recFns f).blockCommentLoopF =
      (if f = 0 then throwE { kind := .outOfFuel }
        else blockCommentLoopFBody (recFns (f - 1))) := by
  cases f <;> rfl

theorem recFns_parseBlockCommentF (f : Nat) :
    (recFns f).parseBlockCommentF =
      (if f = 0 then throwE { kind := .outOfFuel }
        else parseBlockCommentFBody (recFns (f - 1))) := by
  cases f <;> rfl

end STScript

namespace STScript

/-!
### Configurations and result projections used by the claim theorems
-/

/-- The default configuration: verification on, flags from the (default)
ambient flag state, stock unique-id source. -/
def defaultCfg : ParseCfg := { }

/-- `parse` called with an explicit flags argument carrying STRICT_ESCAPING. -/
def strictCfg : ParseCfg := { flagsArg := some { strictEscaping := true } }

/-- The default configuration with command-name verification disabled. -/
def lenientCfg : ParseCfg := { verifyCommandNames := false }

/-- REPLACE_GETVAR active, with a unique-id source that always yields `A`. -/
def getvarCfgA : ParseCfg :=
  { flagsArg := some { replaceGetvar := true }, uuidSource := fun _ => "A".toList }

/-- REPLACE_GETVAR active, with a unique-id source that always yields `BB`
(a second run of the same parse whose id draws came out different). -/
def getvarCfgB : ParseCfg :=
  { flagsArg := some { replaceGetvar := true }, uuidSource := fun _ => "BB".toList }

/-- The error of a failed parse. -/
def parseErr (t : List Char) (cfg : ParseCfg) : Option PErr :=
  match parse t cfg with
  | .error e => some e
  | .ok _ => none

/-- The executor list of a successfully parsed root closure. -/
def parsedExecutors (t : List Char) (cfg : ParseCfg) : Option (List SCExecutor) :=
  match parseTree t cfg with
  | .ok c => some c.executorList
  | .error _ => none

/-- Per executor of a successful parse: its name and its unnamed-argument
string values. -/
def parsedStatements (t : List Char) (cfg : ParseCfg) :
    Option (List (List Char × List (Option (List Char)))) :=
  (parsedExecutors t cfg).map (List.map (fun e => (e.ename, e.unnamedStrs)))

/-- Per executor of a successful parse: its pipe-injection flag. -/
def parsedInjectPipes (t : List Char) (cfg : ParseCfg) :
    Option (List (Option Bool)) :=
  (parsedExecutors t cfg).map (List.map (fun e => e.injectPipe))

/-- Per executor of a successful parse: its name and whether its command
definition resolved. -/
def parsedResolved (t : List Char) (cfg : ParseCfg) :
    Option (List (List Char × Bool)) :=
  (parsedExecutors t cfg).map (List.map (fun e => (e.ename, e.command.isSome)))

/-- Per executor of a successful parse: its name and its parser-flag
snapshot. -/
def parsedFlagSnapshots (t : List Char) (cfg : ParseCfg) :
    Option (List (List Char × Option PFlags)) :=
  (parsedExecutors t cfg).map (List.map (fun e => (e.ename, e.parserFlags)))

/-- The scope chain of the parsed root closure. -/
def parsedScope (t : List Char) (cfg : ParseCfg) : Option ScopeChain :=
  match parseTree t cfg with
  | .ok c => some c.scope
  | .error _ => none

/-- The closure-span index of a successful parse. -/
def parsedClosureIndex (t : List Char) (cfg : ParseCfg) :
    Option (List (Int × Option Int)) :=
  match parse t cfg with
  | .ok (_, s) => some s.closureIndex
  | .error _ => none

/-- The number of closures in the parsed tree (root included). -/
def parsedClosureCount (t : List Char) (cfg : ParseCfg) : Option Nat :=
  match parseTree t cfg with
  | .ok c => some (countClosure c)
  | .error _ => none

/-- The macro index of a successful parse. -/
def parsedMacroIndex (t : List Char) (cfg : ParseCfg) : Option (List MacroEntry) :=
  match parse t cfg with
  | .ok (_, s) => some s.macroIndex
  | .error _ => none

/-- The flag snapshots of the executors inside the closure value of the sole
named argument of the sole statement (the nested-closure flag demo). -/
def parsedNestedFlagSnapshots (t : List Char) (cfg : ParseCfg) :
    Option (List (List Char × Option PFlags)) :=
  match parseTree t cfg with
  | .ok c =>
    match c.executorList with
    | [e] =>
      match e.namedArgumentList with
      | [a] =>
        match a.value with
        | some (.vclosure ic) =>
          some (ic.executorList.map (fun ie => (ie.ename, ie.parserFlags)))
        | _ => none
      | _ => none
    | _ => none
  | .error _ => none

/-- A parser routine run on a fresh state over `t`: cursor at the start, a
root scope frame, no live closure. -/
def runOn {α : Type} (m : M α) (t : List Char) (verify : Bool) :
    Except PErr (α × PState) :=
  m { text := t, scope := [[]], verifyCommandNames := verify }

/-- The error of such a run. -/
def runErr {α : Type} (m : M α) (t : List Char) (verify : Bool) : Option PErr :=
  match runOn m t verify with
  | .error e => some e
  | .ok _ => none

/-- `parseUnnamedArgument` (with the quoting bookkeeping) on a fresh state:
the string values and the quoted marks. -/
def runUnnamed (t : List Char) (split : Bool) (cap : Option Nat)
    (raw : Bool) : Option (List (Option (List Char)) × List Bool) :=
  match runOn (parseUnnamedArgumentFull 200 split cap raw) t true with
  | .ok ((lv, lq), _) => some (lv.map uargStr, lq)
  | .error _ => none

end STScript

namespace STScript

mutual

/-- A tree with the drawn unique ids (`parserContext`) erased everywhere:
two parse results are structurally identical — same offsets, names, values
and shapes — exactly when their erasures are equal. -/
def valStrip : SCVal → SCVal
  | .vstr s => .vstr s
  | .vclosure c => .vclosure (closureStrip c)

def closureStrip : SCClosure → SCClosure
  | c =>
    { c with
      argumentList := namedListStrip c.argumentList,
      executorList := execListStrip c.executorList,
      parserContext := [] }

def valOptStrip : Option SCVal → Option SCVal
  | none => none
  | some v => some (valStrip v)

def namedListStrip : List SCNamedArg → List SCNamedArg
  | [] => []
  | a :: rest => { a with value := valOptStrip a.value } :: namedListStrip rest

def unnamedListStrip : List SCUnnamedArg → List SCUnnamedArg
  | [] => []
  | u :: rest => { u with value := valOptStrip u.value } :: unnamedListStrip rest

def execListStrip : List SCExecutor → List SCExecutor
  | [] => []
  | e :: rest =>
    { e with
      namedArgumentList := namedListStrip e.namedArgumentList,
      unnamedArgumentList := unnamedListStrip e.unnamedArgumentList } ::
      execListStrip rest

end

end STScript

namespace STScript

/-!
### Claim theorems (concrete parts)
-/

/-- C1: with the STRICT_ESCAPING flag active, `/echo abc \| def` parses as a
single statement whose one unnamed-argument value is `abc | def` (the
escaped pipe does not break the statement and the escaping backslash is
dropped), while `/echo abc \\| /echo def` parses as two statements whose
unnamed values are `abc \` and `def` (the doubled backslash collapses to a
single one and the pipe separates the statements). -/
theorem C1_strict_escaping :
    parsedStatements "/echo abc \\| def".toList strictCfg =
      some [("echo".toList, [some "abc | def".toList])] ∧
    parsedStatements "/echo abc \\\\| /echo def".toList strictCfg =
      some [("echo".toList, [some "abc \\".toList]),
        ("echo".toList, [some "def".toList])] := by decide

/-- C2: for every pair of plainly registered command names `c1`, `c2`, the
input `/c1 | /c2` parses to two executors with pipe injection enabled on the
second; `/c1 || /c2` disables injection on the second; and the suppression
applies only to the immediately following statement: in `/c1 || /c2 | /echo`
the third executor has injection enabled again. -/
theorem C2_pipe_injection :
    ∀ n1 ∈ plainRegisteredNames, ∀ n2 ∈ plainRegisteredNames,
      parsedInjectPipes ('/' :: n1 ++ " | /".toList ++ n2) defaultCfg =
        some [some true, some true] ∧
      parsedInjectPipes ('/' :: n1 ++ " || /".toList ++ n2) defaultCfg =
        some [some true, some false] ∧
      parsedInjectPipes ('/' :: n1 ++ " || /".toList ++ n2 ++ " | /echo".toList)
          defaultCfg =
        some [some true, some false, some true] := by decide

/-- C2 witness: the pipe-injection behaviour at the concrete registered pair
`echo`, `let`. -/
theorem C2_pipe_injection_witness :
    "echo".toList ∈ plainRegisteredNames ∧ "let".toList ∈ plainRegisteredNames ∧
    (parsedInjectPipes ('/' :: "echo".toList ++ " | /".toList ++ "let".toList)
        defaultCfg = some [some true, some true] ∧
      parsedInjectPipes ('/' :: "echo".toList ++ " || /".toList ++ "let".toList)
        defaultCfg = some [some true, some false] ∧
      parsedInjectPipes
          ('/' :: "echo".toList ++ " || /".toList ++ "let".toList ++
            " | /echo".toList) defaultCfg =
        some [some true, some false, some true]) :=
  ⟨by decide, by decide,
    C2_pipe_injection "echo".toList (by decide) "let".toList (by decide)⟩

/-- C3: the list-value parser on the unterminated list `[1,2,3` raises
UnterminatedList at offset 6 (the input length) with verification enabled,
and also with it disabled; likewise a full parse of `/echo x=[1,2,3` raises
it at offset 14 (the input length) in both modes: the lenient mode does not
suppress the unterminated-list error. -/
theorem C3_unterminated_list :
    runErr parseListValueM "[1,2,3".toList true =
      some { kind := .unterminatedList, offset := some 6 } ∧
    runErr parseListValueM "[1,2,3".toList false =
      some { kind := .unterminatedList, offset := some 6 } ∧
    ("[1,2,3".toList).length = 6 ∧
    parseErr "/echo x=[1,2,3".toList defaultCfg =
      some { kind := .unterminatedList, offset := some 14 } ∧
    parseErr "/echo x=[1,2,3".toList lenientCfg =
      some { kind := .unterminatedList, offset := some 14 } ∧
    ("/echo x=[1,2,3".toList).length = 14 := by decide

/-- C4: `/bogus` (an unregistered name) with verification enabled raises
UnknownCommand at offset 1 — the offset where the name `bogus` starts; with
verification disabled the parse succeeds, an executor named `bogus` is still
produced, and its resolved command definition is `none`. -/
theorem C4_unknown_command :
    commandsLookup "bogus".toList = none ∧
    parseErr "/bogus".toList defaultCfg =
      some { kind := .unknownCommand, offset := some 1 } ∧
    parsedResolved "/bogus".toList lenientCfg =
      some [("bogus".toList, false)] := by decide

/-- C5: for a command of declared arity 2 with splitting enabled (`spl2`),
the unnamed text `"hello world" extra` yields exactly the two elements
`hello world` (recorded as quoted) and `extra`; for splitting with
split-count cap 1 (`spl1`), `"a" b c` yields the two elements `a` and the
rejoined `b c`, and on `"a" "b" c` the rejoined overflow element restores
the quote characters around the originally quoted `b`. -/
theorem C5_split_unnamed :
    runUnnamed "\"hello world\" extra".toList true none false =
      some ([some "hello world".toList, some "extra".toList], [true, false]) ∧
    parsedStatements "/spl2 \"hello world\" extra".toList defaultCfg =
      some [("spl2".toList, [some "hello world".toList, some "extra".toList])] ∧
    parsedStatements "/spl1 \"a\" b c".toList defaultCfg =
      some [("spl1".toList, [some "a".toList, some "b c".toList])] ∧
    parsedStatements "/spl1 \"a\" \"b\" c".toList defaultCfg =
      some [("spl1".toList, [some "a".toList, some "\"b\" c".toList])] :=
  ⟨by decide, by decide, by decide, by decide⟩

/-- C6 counterexample: two balanced, successfully parsed inputs refute the
claim.  On the empty input the closure-span index is `[(1, some (-1))]`: the
root entry's end offset −1 is smaller than its start offset 1.  On
`/parser-flag {::} on` the index has 2 entries while the produced tree
contains exactly 1 closure (the root): the argument closure of the
`/parser-flag` pseudo-command is parsed — and indexed — but then discarded,
so the index is not one entry per closure of the result. -/
theorem C6_counterexample :
    parsedClosureIndex [] defaultCfg = some [(1, some (-1))] ∧
    ((-1 : Int) < 1) ∧
    (parsedClosureIndex "/parser-flag \x7b::\x7d on".toList defaultCfg).map
        List.length = some 2 ∧
    parsedClosureCount "/parser-flag \x7b::\x7d on".toList defaultCfg =
      some 1 := by
  refine ⟨by decide, by decide, by decide, ?_⟩
  have h : (match parseTree "/parser-flag \x7b::\x7d on".toList defaultCfg with
      | .ok c => c.argumentList.isEmpty && c.executorList.isEmpty
      | .error _ => false) = true := by decide
  unfold parsedClosureCount
  cases hp : parseTree "/parser-flag \x7b::\x7d on".toList defaultCfg with
  | error e => rw [hp] at h; exact Bool.noConfusion h
  | ok c =>
    rw [hp] at h
    simp only [Bool.and_eq_true, List.isEmpty_iff] at h
    obtain ⟨hA, hE⟩ := h
    show some (countClosure c) = some 1
    simp [countClosure.eq_def, hA, hE, countNamedList, countExecList]

/-- C7 counterexample: after `/parser-flag STRICT_ESCAPING on` has switched
the live flags on, the following `/break x` statement produces an executor
whose `parserFlags` is `none` — not a snapshot of the active flag state
(`some strictEscaping`): only the generic-command parser snapshots the
flags, so not every produced executor carries one. -/
theorem C7_counterexample :
    parsedFlagSnapshots "/parser-flag STRICT_ESCAPING on | /break x".toList
        defaultCfg =
      some [("break".toList, none)] ∧
    (none : Option PFlags) ≠ some { strictEscaping := true } := by decide

/-- C8: parsing `/let x 1` registers the destination name `x` into the
current scope — visible in the scope chain of the returned root closure — as
an effect of parsing alone; `/let key=y 2` registers the `key=` destination
`y`; and `/import "a" as "b"` registers the destination `b`, not `a`. -/
theorem C8_scope_registration :
    parsedScope "/let x 1".toList defaultCfg = some [["x".toList]] ∧
    parsedScope "/let key=y 2".toList defaultCfg = some [["y".toList]] ∧
    parsedScope "/import \"a\" as \"b\"".toList defaultCfg =
      some [["b".toList]] := by decide

/-- C9 counterexample: the same text parsed twice with identical flags
(REPLACE_GETVAR on), identical verification setting and the stable registry,
but with the unique-id draws coming out different between the runs (`A`
versus `BB`): the recorded macro-index entries differ (start offset −1
versus −2), because the getvar rewrite splices the drawn ids into the
rewritten value before macro indexing — so re-parsing is not reproducible as
claimed when the id draws differ. -/
theorem C9_counterexample :
    parsedMacroIndex "/echo \"\x7b\x7bgetvar::x\x7d\x7d\"".toList getvarCfgA =
      some [{ start := -1, stop := 21, mname := "var".toList }] ∧
    parsedMacroIndex "/echo \"\x7b\x7bgetvar::x\x7d\x7d\"".toList getvarCfgB =
      some [{ start := -2, stop := 21, mname := "var".toList }] := by decide

/-- C9 amended: parsing is a function of the text and the configuration
(which fixes the flags, the verification setting, the registry and also the
unique-id source): two parses of the same text under the same configuration
return structurally identical trees — equal after erasing the drawn
parser-context ids — with equal span, macro and command indexes. -/
theorem C9_amended (t : List Char) (cfg : ParseCfg) (c1 c2 : SCClosure)
    (s1 s2 : PState) (h1 : parse t cfg = .ok (c1, s1))
    (h2 : parse t cfg = .ok (c2, s2)) :
    closureStrip c1 = closureStrip c2 ∧ s1.closureIndex = s2.closureIndex ∧
    s1.macroIndex = s2.macroIndex ∧ s1.commandIndex = s2.commandIndex := by
  have h := h1.symm.trans h2
  rw [Except.ok.injEq, Prod.mk.injEq] at h
  obtain ⟨rfl, rfl⟩ := h
  exact ⟨rfl, rfl, rfl, rfl⟩

/-- C9 amended witness: both hypotheses discharged by the same concrete
successful parse (`/echo a` under the default configuration). -/
theorem C9_amended_witness :
    (match parse "/echo a".toList defaultCfg with
      | .ok (c, s) =>
        closureStrip c = closureStrip c ∧ s.closureIndex = s.closureIndex ∧
        s.macroIndex = s.macroIndex ∧ s.commandIndex = s.commandIndex
      | .error _ => False) := by
  have hok : (match parse "/echo a".toList defaultCfg with
      | .ok _ => true | .error _ => false) = true := by decide
  cases hp : parse "/echo a".toList defaultCfg with
  | error e => rw [hp] at hok; exact Bool.noConfusion hok
  | ok r =>
    obtain ⟨c, s⟩ := r
    exact C9_amended "/echo a".toList defaultCfg c c s s hp hp

end STScript
